import Mathlib

/-!
Verification of the UK sanctions-list processing program
(`process_sanctions.py`) against its natural-language specification.

The program is shallowly embedded: Python strings are Lean `String`
(logically a `List Char`), nullable values are `Option`, pandas rows are
structures, and each Python helper function is translated into a Lean
function of the same name.  Dates are triples of naturals with explicit
Gregorian-calendar validation, mirroring `datetime`/`pandas` validation.
-/

namespace Sanctions

/-! ## String utilities (Python semantics)

Python's `str.strip()` removes whitespace from both ends; `str.lower()`
lowercases; `str.rstrip(chars)` removes any of the given characters from
the right end.  We model the ASCII whitespace set of Python's `\s` /
`str.strip` (space, tab, newline, carriage return, vertical tab, form
feed); the data processed by the program is ASCII apart from country
names, whose non-ASCII letters are not whitespace in either reading. -/

def isPySpace (c : Char) : Bool :=
  c = ' ' || c = '\t' || c = '\n' || c = '\r' || c = '\x0b' || c = '\x0c'

/-- The `\w` class of Python's `re` (letters, digits, underscore; ASCII model). -/
def isWordChar (c : Char) : Bool :=
  c.isAlphanum || c = '_'

/-- Python `str.lower()` (ASCII model; the only compared-against literal is "nan"). -/
def toLowerStr (s : String) : String :=
  String.mk (s.data.map Char.toLower)

/-- Python `str.rstrip()` with no argument: drop trailing whitespace. -/
def rstripWs : List Char → List Char
  | [] => []
  | c :: l => if rstripWs l = [] ∧ isPySpace c then [] else c :: rstripWs l

/-- Python `str.strip()`: drop whitespace at both ends. -/
def pyStrip (l : List Char) : List Char :=
  (rstripWs l).dropWhile isPySpace

/-- Python `str.strip()` on a `String`. -/
def pyStripStr (s : String) : String :=
  String.mk (pyStrip s.data)

/-- Python `str.rstrip("., ")`: drop trailing periods, commas and spaces. -/
def rstripPunct : List Char → List Char
  | [] => []
  | c :: l =>
    if rstripPunct l = [] ∧ (c = '.' ∨ c = ',' ∨ c = ' ') then []
    else c :: rstripPunct l

/-- Python `str.split(sep)` for a one-character separator: leftmost splits,
keeping empty pieces (so `"".split("/") == [""]`). -/
def splitChar (sep : Char) : List Char → List (List Char)
  | [] => [[]]
  | c :: l =>
    if c = sep then [] :: splitChar sep l
    else
      match splitChar sep l with
      | [] => [[c]]
      | p :: ps => (c :: p) :: ps

/-- Python `str.split("; ")` for the program's `LIST_DELIMITER`:
scan for the leftmost occurrence of the two-character separator. -/
def splitDelim : List Char → List (List Char)
  | [] => [[]]
  | [c] => [[c]]
  | c :: d :: l =>
    if c = ';' ∧ d = ' ' then [] :: splitDelim l
    else (c :: (splitDelim (d :: l)).headD []) :: (splitDelim (d :: l)).tail

/-- Containment of the two-character delimiter `"; "`. -/
def hasDelim : List Char → Bool
  | [] => false
  | [_] => false
  | c :: d :: l => (c = ';' && d = ' ') || hasDelim (d :: l)

/-- Python `"; ".join(pieces)` on character lists. -/
def intercalateDelim : List (List Char) → List Char
  | [] => []
  | [x] => x
  | x :: l => x ++ ';' :: ' ' :: intercalateDelim l

/-- Inverse of `splitChar`: rejoin the pieces with the separator. -/
def joinChar (sep : Char) : List (List Char) → List Char
  | [] => []
  | [x] => x
  | x :: xs => x ++ sep :: joinChar sep xs

/-- Value of a decimal digit string (the pieces are validated separately). -/
def digitsToNat (l : List Char) : Nat :=
  l.foldl (fun n c => 10 * n + (c.toNat - '0'.toNat)) 0

/-- First-occurrence deduplication, as `pandas.Series.unique` does
(keep an element when it has not been seen before). -/
def uniqueFirstAux [DecidableEq α] (seen : List α) : List α → List α
  | [] => []
  | a :: l => if a ∈ seen then uniqueFirstAux seen l else a :: uniqueFirstAux (a :: seen) l

def uniqueFirst [DecidableEq α] (l : List α) : List α :=
  uniqueFirstAux [] l

/-- Lexicographic code-point order on strings, as Python compares `str`
(the `String` order of Mathlib is not kernel-reducible, so we use the
`List Char` order, which is the same comparison). -/
def strLe (a b : String) : Prop := a.data ≤ b.data

instance : DecidableRel strLe := fun a b => inferInstanceAs (Decidable (a.data ≤ b.data))

instance : IsTotal String strLe := ⟨fun a b => le_total a.data b.data⟩

instance : IsTrans String strLe := ⟨fun _ _ _ h₁ h₂ => le_trans h₁ h₂⟩

instance : IsAntisymm String strLe :=
  ⟨fun a b h₁ h₂ => by
    cases a; cases b
    exact congrArg String.mk (le_antisymm h₁ h₂)⟩

/-- Python `sorted` on a list of strings. -/
def pySorted (l : List String) : List String :=
  List.insertionSort strLe l

/-! ## Date-of-birth parsing (`parse_dob_comprehensive`)

The Python function tries, in order: a strict `%d/%m/%Y` parse (skipped
when the string starts with the `"00/"` day placeholder), the pattern
`^00/(\d{1,2})/(\d{4})$`, and the pattern `^00/00/(\d{4})$`, each gated
on the year range `[1900, current year]`.  `%d` accepts one or two digits
with value 1–31, `%m` one or two digits with value 1–12, `%Y` exactly
four digits, and the parse validates the Gregorian calendar. -/

structure PDate where
  year : Nat
  month : Nat
  day : Nat
deriving DecidableEq, Repr

def isLeapYear (y : Nat) : Bool :=
  (y % 4 = 0 && y % 100 ≠ 0) || y % 400 = 0

def daysInMonth (y m : Nat) : Nat :=
  if m = 2 then (if isLeapYear y then 29 else 28)
  else if m = 4 ∨ m = 6 ∨ m = 9 ∨ m = 11 then 30
  else 31

/-- Strict `%d/%m/%Y` parse with calendar validation, as
`pd.to_datetime(s, format="%d/%m/%Y", errors="raise")` accepts it
(verified against CPython `strptime`: `%Y` is exactly four digits). -/
def parseDMY (l : List Char) : Option PDate :=
  match splitChar '/' l with
  | [p₁, p₂, p₃] =>
    if p₁.all Char.isDigit ∧ 1 ≤ p₁.length ∧ p₁.length ≤ 2
        ∧ p₂.all Char.isDigit ∧ 1 ≤ p₂.length ∧ p₂.length ≤ 2
        ∧ p₃.all Char.isDigit ∧ p₃.length = 4 then
      let d := digitsToNat p₁
      let m := digitsToNat p₂
      let y := digitsToNat p₃
      if 1 ≤ d ∧ 1 ≤ m ∧ m ≤ 12 ∧ d ≤ daysInMonth y m then
        some ⟨y, m, d⟩
      else none
    else none
  | _ => none

/-- The regex `^00/(\d{1,2})/(\d{4})$`, returning (month, year) values. -/
def match00MM (l : List Char) : Option (Nat × Nat) :=
  match splitChar '/' l with
  | [p₁, p₂, p₃] =>
    if p₁ = ['0', '0'] ∧ p₂.all Char.isDigit ∧ 1 ≤ p₂.length ∧ p₂.length ≤ 2
        ∧ p₃.all Char.isDigit ∧ p₃.length = 4 then
      some (digitsToNat p₂, digitsToNat p₃)
    else none
  | _ => none

/-- The regex `^00/00/(\d{4})$`, returning the year value. -/
def match0000 (l : List Char) : Option Nat :=
  match splitChar '/' l with
  | [p₁, p₂, p₃] =>
    if p₁ = ['0', '0'] ∧ p₂ = ['0', '0'] ∧ p₃.all Char.isDigit ∧ p₃.length = 4 then
      some (digitsToNat p₃)
    else none
  | _ => none

/-- Python `dob_str.startswith("00/")`. -/
def startsWith00 : List Char → Bool
  | '0' :: '0' :: '/' :: _ => true
  | _ => false

/-- Rule 1 of `parse_dob_comprehensive`: strict full-date parse, skipped for
a `"00/"`-leading string, accepted only for year in `[1900, currentYear]`. -/
def dobRule1 (currentYear : Nat) (s : String) : Option PDate :=
  if startsWith00 s.data then none
  else
    match parseDMY s.data with
    | some d => if 1900 ≤ d.year ∧ d.year ≤ currentYear then some d else none
    | none => none

/-- Rule 2: `00/MM/YYYY` with month in `[1,12]` and year in range gives the
first day of the month (the `pd.Timestamp` construction cannot fail there). -/
def dobRule2 (currentYear : Nat) (s : String) : Option PDate :=
  match match00MM s.data with
  | some (m, y) =>
    if 1 ≤ m ∧ m ≤ 12 ∧ 1900 ≤ y ∧ y ≤ currentYear then some ⟨y, m, 1⟩ else none
  | none => none

/-- Rule 3: `00/00/YYYY` with year in range gives January 1 of the year. -/
def dobRule3 (currentYear : Nat) (s : String) : Option PDate :=
  match match0000 s.data with
  | some y =>
    if 1900 ≤ y ∧ y ≤ currentYear then some ⟨y, 1, 1⟩ else none
  | none => none

/-- Translation of `parse_dob_comprehensive`.  A pandas-null input is
`none`; the check `str(dob).strip().lower() == "nan"` is the second
"Missing" condition.  The rules then apply to the stripped string in
order, first success winning, defaulting to `(none, "Unknown/Failed")`.
The current year (`pd.Timestamp.now().year`) is a parameter. -/
def parse_dob_comprehensive (currentYear : Nat) (dob : Option String) :
    Option PDate × String :=
  match dob with
  | none => (none, "Missing")
  | some raw =>
    if toLowerStr (pyStripStr raw) = "nan" then (none, "Missing")
    else
      let s := pyStripStr raw
      match dobRule1 currentYear s with
      | some d => (some d, "Full Date")
      | none =>
        match dobRule2 currentYear s with
        | some d => (some d, "Month/Year Only")
        | none =>
          match dobRule3 currentYear s with
          | some d => (some d, "Year Only")
          | none => (none, "Unknown/Failed")

/-! ## Row-level country cleansing (`clean_country_string`)

The pattern is `^(?:\(\w{1,3}\)\s*)*(.*?)(\s*\(\d+\).*)*$` applied with
`re.match`.  We model the engine's behavior directly: the leading loop is
greedy with backtracking (each iteration consumes `(`, one to three word
characters, `)`, then a greedy whitespace run), group 1 is lazy and
cannot cross a newline, and the trailing group repeats `\s*\(\d+\).*`
with `$` matching at the end or before a final newline.  When no
decomposition exists (possible only around interior newlines) `re.match`
returns `None` and the Python code falls back to stripping the whole
string. -/

/-- One iteration of the leading group `\(\w{1,3}\)\s*`: on success,
returns the consumed whitespace run and the remainder after it.
The word run is maximal (backtracking inside `\w{1,3}` cannot succeed
otherwise, because a shorter run is followed by a word character). -/
def tryIter (s : List Char) : Option (List Char × List Char) :=
  match s with
  | [] => none
  | c :: t =>
    if c = '(' then
      if 1 ≤ (t.takeWhile isWordChar).length ∧ (t.takeWhile isWordChar).length ≤ 3 then
        match t.drop (t.takeWhile isWordChar).length with
        | [] => none
        | c' :: u =>
          if c' = ')' then some (u.takeWhile isPySpace, u.dropWhile isPySpace)
          else none
      else none
    else none

/-- Backtracking states of one iteration's trailing `\s*`, highest
priority first: give back one whitespace character, then two, and so on. -/
def wsSuffixStates (ws rest : List Char) : List (List Char) :=
  (List.range ws.length).map (fun j => ws.drop (ws.length - 1 - j) ++ rest)

/-- All remainders at which the lazy group can start, in the engine's
priority order: deepest greedy iteration first, then that iteration's
whitespace givebacks, then the state before the iteration.  Fueled; the
fuel `s.length` suffices since an iteration consumes at least three
characters. -/
def leadStatesF : Nat → List Char → List (List Char)
  | 0, s => [s]
  | fuel + 1, s =>
    match tryIter s with
    | none => [s]
    | some (ws, rest) => leadStatesF fuel rest ++ wsSuffixStates ws rest ++ [s]

def leadStates (s : List Char) : List (List Char) :=
  leadStatesF s.length s

/-- Parse `\(\d+\)` exactly at the head: on success, return what follows
the closing parenthesis. -/
def parensNumCore (l : List Char) : Option (List Char) :=
  match l with
  | [] => none
  | c :: r₂ =>
    if c = '(' then
      if (r₂.takeWhile Char.isDigit).length = 0 then none
      else
        match r₂.drop (r₂.takeWhile Char.isDigit).length with
        | [] => none
        | c' :: rest₃ => if c' = ')' then some rest₃ else none
    else none

def parensNumHead (r : List Char) : Option (List Char) :=
  parensNumCore (r.dropWhile isPySpace)

/-- Membership in the language of `(\s*\(\d+\).*)*$`: either `$` matches
here (remainder empty, or exactly a final newline), or one iteration
consumes `\s*\(\d+\)` and `.*` takes any newline-free run, recursively.
Fueled; an iteration consumes at least three characters so `r.length`
fuel suffices. -/
def tailOKF : Nat → List Char → Bool
  | 0, r => r = [] || r = ['\n']
  | fuel + 1, r =>
    if r = [] then true
    else if r = ['\n'] then true
    else
      match parensNumHead r with
      | none => false
      | some rest =>
        (List.range ((rest.takeWhile (· ≠ '\n')).length + 1)).any
          (fun i => tailOKF fuel (rest.drop i))

def tailOK (r : List Char) : Bool :=
  tailOKF r.length r

/-- Lazy search for group 1 inside one leading-state remainder: try the
empty group first, then extend one character at a time; the dot of
`(.*?)` cannot match a newline. -/
def lazySplitRec : List Char → Option (List Char)
  | [] => if tailOK [] then some [] else none
  | c :: r =>
    if tailOK (c :: r) then some []
    else if c = '\n' then none
    else (lazySplitRec r).map (c :: ·)

/-- Group 1 of `re.match(country_extract_pattern, s)`, or `none` when the
pattern does not match. -/
def pyGroup1 (s : List Char) : Option (List Char) :=
  (leadStates s).findSome? lazySplitRec

/-- Translation of `clean_country_string`: on a match, strip group 1;
otherwise strip the whole string; then (when non-empty) right-strip
`". ,"` characters; an empty result is pandas `NA`. -/
def clean_country_string (country : Option String) : Option String :=
  match country with
  | none => none
  | some str =>
    let cs := str.data
    let cleaned :=
      match pyGroup1 cs with
      | some g₁ => pyStrip g₁
      | none => pyStrip cs
    let cleaned₂ := if cleaned = [] then cleaned else rstripPunct cleaned
    if cleaned₂ = [] then none else some (String.mk cleaned₂)

/-! ### Specification-side description of the row-level cleanse

The specification describes `clean_country_string` compositionally:
strip any leading bracketed short codes (one to three word characters in
parentheses, possibly repeated), strip any trailing `"(number…)"`
annotation, trim whitespace, strip trailing periods/commas/spaces, and
return null when the result is empty.  The following definitions follow
those words. -/

/-- Strip one leading bracketed short code and the whitespace after it. -/
def stripOneLeadingCode (s : List Char) : Option (List Char) :=
  match s with
  | [] => none
  | c :: t =>
    if c = '(' then
      if 1 ≤ (t.takeWhile isWordChar).length ∧ (t.takeWhile isWordChar).length ≤ 3 then
        match t.drop (t.takeWhile isWordChar).length with
        | [] => none
        | c' :: u => if c' = ')' then some (u.dropWhile isPySpace) else none
      else none
    else none

def dropCodesSpecF : Nat → List Char → List Char
  | 0, s => s
  | fuel + 1, s =>
    match stripOneLeadingCode s with
    | none => s
    | some rest => dropCodesSpecF fuel rest

/-- Repeatedly strip leading bracketed short codes. -/
def dropLeadingCodesSpec (s : List Char) : List Char :=
  dropCodesSpecF s.length s

/-- Does a parenthesized number `(digits)` begin here? -/
def startsParenNum (t : List Char) : Bool :=
  (parensNumCore t).isSome

/-- Cut the string at the first parenthesized-number annotation,
dropping it and everything after it. -/
def cutTrailingAnnot : List Char → List Char
  | [] => []
  | c :: r =>
    if startsParenNum (c :: r) then [] else c :: cutTrailingAnnot r

/-- The specification's description of the row-level country cleanse. -/
def cleanCountrySpec (country : Option String) : Option String :=
  match country with
  | none => none
  | some str =>
    let t := dropLeadingCodesSpec str.data
    let u := cutTrailingAnnot t
    let v := pyStrip u
    let w := rstripPunct v
    if w = [] then none else some (String.mk w)

/-! ## Multi-value field aggregation (`get_unique_sorted_list`)

The pandas series of raw values for one attribute is a `List (Option
String)` (at every call site the series has a homogeneous element type,
so Python's `str()` is injective on it and is the identity in this
model).  `series.dropna().unique()` drops nulls and deduplicates keeping
first occurrences; the null-sentinel filter compares the stripped,
lowercased value against `("nan", "none", "<na>", "nat")`; the result is
Python-sorted, or `None` when empty.  The `try/except` wrapper cannot
fire on string data. -/

def isNullSentinel (s : String) : Bool :=
  let v := toLowerStr (pyStripStr s)
  v = "nan" || v = "none" || v = "<na>" || v = "nat"

def get_unique_sorted_list (series : List (Option String)) : Option (List String) :=
  let unique_vals := uniqueFirst (series.filterMap id)
  let valid_vals_filtered := unique_vals.filter (fun v => ¬ isNullSentinel v)
  if valid_vals_filtered.length > 0 then some (pySorted valid_vals_filtered) else none

/-! ## Aggregate-level country standardization (`standardize_cell`)

The replacement table is carried over verbatim from
`standardize_countries_in_agg_col`. -/

def country_replacement_map : List (String × String) :=
  [("Russian Federation", "Russia"),
   ("Russian", "Russia"),
   ("RUSSIA", "Russia"),
   ("Belarusian SSR, (now Belarus)", "Belarus"),
   ("Uzbekhistan", "Uzbekistan"),
   ("Ukrainian SSR now Ukraine", "Ukrainian SSR (now Ukraine)"),
   ("Ukrainian SSR (Ukraine)", "Ukrainian SSR (now Ukraine)"),
   ("Ukrainian SSR", "Ukrainian SSR (now Ukraine)"),
   ("Kazakh Soviet Socialist Republic (now Kazakhstan)", "Kazakh SSR (now Kazakhstan)"),
   ("Kazakh Soviet Socialist Republic", "Kazakh SSR (now Kazakhstan)"),
   ("Kazakh SSR", "Kazakh SSR (now Kazakhstan)"),
   ("Bosnia-Herzegovina", "Bosnia and Herzegovina"),
   ("Uzbek SSR", "Uzbekistan SSR (now Uzbekistan)"),
   ("USSR", "Russia (USSR)"),
   ("United Republic of Tanzania", "Tanzania"),
   ("German", "Germany"),
   ("Democratic People's Republic of Korea", "North Korea"),
   ("DPRK", "North Korea"),
   ("Türkiye", "Turkey"),
   ("United States of America", "United States"),
   ("Guinea-Bissau", "Guinea Bissau")]

/-- Python `country_replacement_map.get(t, t)` (dictionary lookup with
the token itself as default). -/
def mapGetCountry (t : String) : String :=
  match country_replacement_map.find? (fun p => p.1 = t) with
  | some p => p.2
  | none => t

/-- Translation of the inner `standardize_cell`: split the delimited cell
on `"; "`, strip each token, map it through the replacement table, keep
non-empty results in a set, then sort and rejoin; null in, null out;
empty result is `NA`.  The Python `set` plus `sorted(list(...))` is
modeled by first-occurrence dedup followed by Python sorting, which
yields the same sorted duplicate-free list. -/
def standardize_cell (cell : Option String) : Option String :=
  match cell with
  | none => none
  | some s =>
    let countries := (splitDelim s.data).map (fun p => String.mk (pyStrip p))
    let standardized := (countries.map mapGetCountry).filter (fun v => v ≠ "")
    let sortedVals := pySorted (uniqueFirst standardized)
    if sortedVals = [] then none
    else some (String.mk (intercalateDelim (sortedVals.map String.data)))

/-! ## Entity aggregation (`aggregate_sanctions_data`)

A source row carries the fields used by canonical-row selection and by
the claims about the pipeline; the `Group ID` is an integer per the
input's data-model invariant (pandas `groupby` would silently drop null
keys, which cannot occur here).  The aggregated record models the fields
the canonical row supplies; the other aggregated fields
(aliases, DOB, countries, positions, identifiers, address) are built by
`get_unique_sorted_list`/set machinery verified separately and do not
bear on the claims. -/

structure Row where
  groupID : Int
  aliasType : Option String
  constructedName : Option String
  nameNonLatin : Option String
  groupType : Option String
  regime : Option String
  listedOn : Option String
  dateDesignated : Option String
  lastUpdated : Option String
deriving DecidableEq, Repr

structure AggRow where
  primaryName : Option String
  primaryNameNonLatin : Option String
  groupTypeOut : Option String
  regimeOut : Option String
  listedOnOut : Option String
  dateDesignatedOut : Option String
  lastUpdatedOut : Option String
deriving DecidableEq, Repr

def tagPrimary (r : Row) : Bool :=
  r.aliasType == some "Primary name"

def tagPrimaryVariation (r : Row) : Bool :=
  r.aliasType == some "Primary name variation"

/-- The canonical-row selection of `aggregate_sanctions_data`:
`group[group["Alias Type"] == "Primary name"].head(1)`, then the
`"Primary name variation"` filter, then `group.iloc[[0]]`.  Comparison
of a null alias type with a string is `False` in pandas, hence the
`Option` equality through `==`. -/
def selectPrimaryRow (g : List Row) : Option Row :=
  match (g.filter tagPrimary).head? with
  | some r => some r
  | none =>
    match (g.filter tagPrimaryVariation).head? with
    | some r => some r
    | none => g.head?

/-- Translation of `aggregate_sanctions_data`, restricted to the fields
the canonical row supplies.  A `groupby` group is never empty; on the
unreachable empty group the Python code would raise, and this model
returns an all-null record. -/
def aggregate_sanctions_data (g : List Row) : AggRow :=
  match selectPrimaryRow g with
  | none => ⟨none, none, none, none, none, none, none⟩
  | some pr =>
    { primaryName := pr.constructedName
      primaryNameNonLatin := pr.nameNonLatin
      groupTypeOut := pr.groupType
      regimeOut := pr.regime
      listedOnOut := pr.listedOn
      dateDesignatedOut := pr.dateDesignated
      lastUpdatedOut := pr.lastUpdated }

/-! ## Pipeline: group by `Group ID`, aggregate, sort (`main` steps 5 and 12) -/

/-- Keys of `uk_sanctions_raw.groupby("Group ID")`: the distinct group
identifiers, in ascending order (pandas sorts group keys by default). -/
def groupKeys (rows : List Row) : List Int :=
  List.insertionSort (· ≤ ·) (uniqueFirst (rows.map (·.groupID)))

/-- The aggregated table (`grouped.progress_apply(aggregate_sanctions_data)`
then `reset_index()`): one row per distinct `Group ID`, carrying the key. -/
def pipelineTable (rows : List Row) : List (Int × AggRow) :=
  (groupKeys rows).map (fun k => (k, aggregate_sanctions_data (rows.filter (fun r => r.groupID = k))))

/-- Step 12: `structured_sanctions.sort_values(by="Group ID")`. -/
def sortPairs (l : List (Int × AggRow)) : List (Int × AggRow) :=
  List.insertionSort (fun a b => a.1 ≤ b.1) l

def exportTable (rows : List Row) : List (Int × AggRow) :=
  sortPairs (pipelineTable rows)

/-! ## Quality gate (`run_final_checks`) -/

/-- One row of the final structured table as the gate inspects it.  The
`Group ID` is nullable here because the gate checks exactly that. -/
structure FinalRow where
  fGroupID : Option Int
  fPrimaryName : Option String
  fGroupType : Option String
  fRegime : Option String
deriving DecidableEq, Repr

/-- The final table plus the frame-level dtype fact the gate checks with
`pd.api.types.is_integer_dtype(df["Group ID"])`. -/
structure FinalTable where
  frows : List FinalRow
  groupIdIntDtype : Bool
deriving DecidableEq, Repr

def expected_group_types : List String :=
  ["Individual", "Entity", "Ship"]

/-- Translation of `run_final_checks`.  With `verbose` false the Python
function returns `True` immediately, running no checks.  Otherwise
`ready_for_export` starts true and is cleared by: nulls in the critical
columns, duplicated `Group ID` values, a non-integer `Group ID` dtype,
or an unexpected `Group_Type` value.  The date-dtype and empty-string
checks only emit warnings and never change the returned flag. -/
def run_final_checks (df : FinalTable) (verbose : Bool) : Bool :=
  if !verbose then true
  else
    let criticalNullsOk := !(df.frows.any (fun r =>
      r.fGroupID.isNone || r.fPrimaryName.isNone || r.fGroupType.isNone || r.fRegime.isNone))
    let noDupIds := decide (df.frows.map (·.fGroupID)).Nodup
    let dtypeOk := df.groupIdIntDtype
    let groupTypesOk := !(df.frows.any (fun r =>
      match r.fGroupType with
      | some g => !(expected_group_types.contains g)
      | none => false))
    criticalNullsOk && noDupIds && dtypeOk && groupTypesOk

/-- The final structured table as the gate sees it (after aggregation the
`Group ID` column is the integer group key, so the dtype check holds by
construction). -/
def toFinalTable (tbl : List (Int × AggRow)) : FinalTable :=
  { frows := tbl.map (fun p =>
      { fGroupID := some p.1
        fPrimaryName := p.2.primaryName
        fGroupType := p.2.groupTypeOut
        fRegime := p.2.regimeOut })
    groupIdIntDtype := true }

/-- Steps 11 and 12 of `main`: run the quality gate on the aggregated
table, then sort and export.  The gate's verdict is reported but the
output is produced either way. -/
def mainResult (rows : List Row) (verbose : Bool) : List (Int × AggRow) × Bool :=
  let table := pipelineTable rows
  let ready := run_final_checks (toFinalTable table) verbose
  (sortPairs table, ready)

/-- Equality of the seven canonical-row-supplied fields between an
aggregated record and a source row. -/
def canonicalFieldsEq (a : AggRow) (r : Row) : Prop :=
  a.primaryName = r.constructedName
  ∧ a.primaryNameNonLatin = r.nameNonLatin
  ∧ a.groupTypeOut = r.groupType
  ∧ a.regimeOut = r.regime
  ∧ a.listedOnOut = r.listedOn
  ∧ a.dateDesignatedOut = r.dateDesignated
  ∧ a.lastUpdatedOut = r.lastUpdated

/-! ## Concrete data for witnesses and counterexamples -/

/-- Sample group: two alias rows around one `"Primary name"` row. -/
def sampleRowA : Row :=
  { groupID := 100, aliasType := none, constructedName := some "Jon Smith"
    nameNonLatin := none, groupType := some "Individual", regime := some "Regime X"
    listedOn := some "01/01/2020", dateDesignated := some "02/01/2020"
    lastUpdated := some "03/01/2020" }

def sampleRowB : Row :=
  { groupID := 100, aliasType := some "Primary name", constructedName := some "John Smith"
    nameNonLatin := some "Смит", groupType := some "Individual", regime := some "Regime Y"
    listedOn := some "04/01/2020", dateDesignated := some "05/01/2020"
    lastUpdated := some "06/01/2020" }

def sampleRowC : Row :=
  { groupID := 100, aliasType := some "Primary name variation", constructedName := some "J. Smith"
    nameNonLatin := none, groupType := some "Entity", regime := some "Regime Z"
    listedOn := some "07/01/2020", dateDesignated := some "08/01/2020"
    lastUpdated := some "09/01/2020" }

def sampleGroup : List Row := [sampleRowA, sampleRowB, sampleRowC]

/-- Sample input with interleaved group identifiers 9, 7, 9. -/
def mixedRows : List Row :=
  [{ groupID := 9, aliasType := none, constructedName := some "B", nameNonLatin := none
     groupType := some "Entity", regime := some "R", listedOn := none
     dateDesignated := none, lastUpdated := none },
   { groupID := 7, aliasType := none, constructedName := some "A", nameNonLatin := none
     groupType := some "Entity", regime := some "R", listedOn := none
     dateDesignated := none, lastUpdated := none },
   { groupID := 9, aliasType := some "Primary name", constructedName := some "C"
     nameNonLatin := none, groupType := some "Entity", regime := some "R"
     listedOn := none, dateDesignated := none, lastUpdated := none }]

/-- Sample final table whose second row has a null primary name. -/
def badFinalTable : FinalTable :=
  { frows := [{ fGroupID := some 1, fPrimaryName := some "A"
                fGroupType := some "Entity", fRegime := some "R" },
              { fGroupID := some 2, fPrimaryName := none
                fGroupType := some "Entity", fRegime := some "R" }]
    groupIdIntDtype := true }

/-! ## Helper lemmas -/

theorem splitChar_ne_nil (sep : Char) (l : List Char) : splitChar sep l ≠ [] := by
  induction l with
  | nil => simp [splitChar]
  | cons c r ih =>
    simp only [splitChar]
    split
    · simp
    · rcases h : splitChar sep r with _ | ⟨p, ps⟩
      · simp
      · simp [h]

theorem joinChar_cons (sep : Char) (x : List Char) (S : List (List Char)) (hS : S ≠ []) :
    joinChar sep (x :: S) = x ++ sep :: joinChar sep S := by
  rcases S with _ | ⟨y, ys⟩
  · exact absurd rfl hS
  · rfl

theorem splitChar_join (sep : Char) (l : List Char) :
    joinChar sep (splitChar sep l) = l := by
  induction l with
  | nil => simp [splitChar, joinChar]
  | cons c r ih =>
    simp only [splitChar]
    split
    · next hc =>
      rw [joinChar_cons sep [] _ (splitChar_ne_nil sep r), ih]
      simp [hc]
    · rcases h : splitChar sep r with _ | ⟨p, ps⟩
      · exact absurd h (splitChar_ne_nil sep r)
      · rw [h] at ih
        rcases ps with _ | ⟨q, qs⟩
        · simpa [joinChar] using congrArg (c :: ·) ih
        · rw [joinChar_cons sep p _ (by simp)] at ih
          rw [joinChar_cons sep (c :: p) _ (by simp)]
          simpa using congrArg (c :: ·) ih

theorem parseDMY_splits (l : List Char) (d : PDate) (h : parseDMY l = some d) :
    ∃ p₁ p₂ p₃, splitChar '/' l = [p₁, p₂, p₃] := by
  unfold parseDMY at h
  split at h
  · next p₁ p₂ p₃ hs => exact ⟨p₁, p₂, p₃, hs⟩
  · exact absurd h (by simp)

theorem parseDMY_mem_slash (l : List Char) (d : PDate) (h : parseDMY l = some d) :
    '/' ∈ l := by
  obtain ⟨p₁, p₂, p₃, hs⟩ := parseDMY_splits l d h
  have hj := splitChar_join '/' l
  rw [hs] at hj
  rw [joinChar_cons _ _ _ (by simp)] at hj
  rw [← hj]
  simp

theorem match00MM_shape (l : List Char) (m y : Nat) (h : match00MM l = some (m, y)) :
    ∃ p₂ p₃, splitChar '/' l = [['0', '0'], p₂, p₃] := by
  unfold match00MM at h
  split at h
  · next p₁ p₂ p₃ hs =>
    split at h
    · next hcond =>
      exact ⟨p₂, p₃, by rw [hs, hcond.1]⟩
    · exact absurd h (by simp)
  · exact absurd h (by simp)

theorem match0000_shape (l : List Char) (y : Nat) (h : match0000 l = some y) :
    ∃ p₃, splitChar '/' l = [['0', '0'], ['0', '0'], p₃]
      ∧ p₃.all Char.isDigit ∧ p₃.length = 4 ∧ y = digitsToNat p₃ := by
  unfold match0000 at h
  split at h
  · next p₁ p₂ p₃ hs =>
    split at h
    · next hcond =>
      refine ⟨p₃, by rw [hs, hcond.1, hcond.2.1], hcond.2.2.1, hcond.2.2.2, ?_⟩
      simpa using h.symm
    · exact absurd h (by simp)
  · exact absurd h (by simp)

theorem split00_structure (l : List Char) (p₂ p₃ : List Char)
    (hs : splitChar '/' l = [['0', '0'], p₂, p₃]) :
    l = '0' :: '0' :: '/' :: (p₂ ++ '/' :: p₃) := by
  have hj := splitChar_join '/' l
  rw [hs] at hj
  rw [joinChar_cons _ _ _ (by simp), joinChar_cons _ _ _ (by simp)] at hj
  simpa [joinChar] using hj.symm

theorem startsWith00_of_match00MM (l : List Char) (m y : Nat)
    (h : match00MM l = some (m, y)) : startsWith00 l = true := by
  obtain ⟨p₂, p₃, hs⟩ := match00MM_shape l m y h
  rw [split00_structure l p₂ p₃ hs]
  rfl

theorem mem_slash_of_match00MM (l : List Char) (m y : Nat)
    (h : match00MM l = some (m, y)) : '/' ∈ l := by
  obtain ⟨p₂, p₃, hs⟩ := match00MM_shape l m y h
  rw [split00_structure l p₂ p₃ hs]
  simp

/-- A string containing a slash cannot lowercase to `"nan"`. -/
theorem lower_ne_nan_of_mem_slash (s : String) (h : '/' ∈ s.data) :
    toLowerStr s ≠ "nan" := by
  intro heq
  have hm : Char.toLower '/' ∈ s.data.map Char.toLower := List.mem_map_of_mem _ h
  have : s.data.map Char.toLower = ['n', 'a', 'n'] := congrArg String.data heq
  rw [this] at hm
  simp [Char.toLower] at hm

/-! ## Claim theorems: date-of-birth parsing -/

/-- C4.  For every non-null, non-sentinel input string the parser tries
the rules in order, first success winning: a (stripped) string not
beginning with `"00/"` that parses strictly as day/month/4-digit-year
with year in `[1900, currentYear]` gives that exact date with precision
`"Full Date"`; otherwise a string matching `00/MM/YYYY` with month in
`[1,12]` and year in range gives the first day of that month with
`"Month/Year Only"`; otherwise a string matching `00/00/YYYY` with year
in range gives January 1 of that year with `"Year Only"`. -/
theorem claim_C4 (cy : Nat) (t : String) (d : PDate) (m y : Nat) :
    (startsWith00 (pyStripStr t).data = false →
      parseDMY (pyStripStr t).data = some d →
      1900 ≤ d.year → d.year ≤ cy →
      parse_dob_comprehensive cy (some t) = (some d, "Full Date"))
  ∧ (match00MM (pyStripStr t).data = some (m, y) →
      1 ≤ m → m ≤ 12 → 1900 ≤ y → y ≤ cy →
      parse_dob_comprehensive cy (some t) = (some ⟨y, m, 1⟩, "Month/Year Only"))
  ∧ (match0000 (pyStripStr t).data = some y →
      1900 ≤ y → y ≤ cy →
      parse_dob_comprehensive cy (some t) = (some ⟨y, 1, 1⟩, "Year Only")) := by
  refine ⟨?_, ?_, ?_⟩
  · intro h0 hp h₁ h₂
    have hnan : toLowerStr (pyStripStr t) ≠ "nan" :=
      lower_ne_nan_of_mem_slash _ (parseDMY_mem_slash _ d hp)
    have hr1 : dobRule1 cy (pyStripStr t) = some d := by
      simp [dobRule1, h0, hp, h₁, h₂]
    simp [parse_dob_comprehensive, hnan, hr1]
  · intro hp h₁ h₂ h₃ h₄
    have hnan : toLowerStr (pyStripStr t) ≠ "nan" :=
      lower_ne_nan_of_mem_slash _ (mem_slash_of_match00MM _ m y hp)
    have h0 : startsWith00 (pyStripStr t).data = true :=
      startsWith00_of_match00MM _ m y hp
    have hr1 : dobRule1 cy (pyStripStr t) = none := by
      simp [dobRule1, h0]
    have hr2 : dobRule2 cy (pyStripStr t) = some ⟨y, m, 1⟩ := by
      simp [dobRule2, hp, h₁, h₂, h₃, h₄]
    simp [parse_dob_comprehensive, hnan, hr1, hr2]
  · intro hp h₁ h₂
    obtain ⟨p₃, hs, hdig, hlen, hy⟩ := match0000_shape _ y hp
    have hMM : match00MM (pyStripStr t).data = some (0, y) := by
      unfold match00MM
      rw [hs]
      simp [hdig, hlen, digitsToNat, hy]
    have hnan : toLowerStr (pyStripStr t) ≠ "nan" :=
      lower_ne_nan_of_mem_slash _ (mem_slash_of_match00MM _ 0 y hMM)
    have h0 : startsWith00 (pyStripStr t).data = true :=
      startsWith00_of_match00MM _ 0 y hMM
    have hr1 : dobRule1 cy (pyStripStr t) = none := by
      simp [dobRule1, h0]
    have hr2 : dobRule2 cy (pyStripStr t) = none := by
      simp [dobRule2, hMM]
    have hr3 : dobRule3 cy (pyStripStr t) = some ⟨y, 1, 1⟩ := by
      simp [dobRule3, hp, h₁, h₂]
    simp [parse_dob_comprehensive, hnan, hr1, hr2, hr3]

/-- Witness for C4 at the specification's own examples. -/
theorem claim_C4_witness :
    parse_dob_comprehensive 2026 (some "15/06/1980") = (some ⟨1980, 6, 15⟩, "Full Date")
  ∧ parse_dob_comprehensive 2026 (some "00/06/1980") = (some ⟨1980, 6, 1⟩, "Month/Year Only")
  ∧ parse_dob_comprehensive 2026 (some "00/00/1980") = (some ⟨1980, 1, 1⟩, "Year Only") :=
  ⟨(claim_C4 2026 "15/06/1980" ⟨1980, 6, 15⟩ 0 0).1 (by decide) (by decide) (by decide) (by decide),
   (claim_C4 2026 "00/06/1980" ⟨0, 0, 0⟩ 6 1980).2.1 (by decide) (by decide) (by decide) (by decide) (by decide),
   (claim_C4 2026 "00/00/1980" ⟨0, 0, 0⟩ 0 1980).2.2 (by decide) (by decide) (by decide)⟩

/-- C5, counterexample.  The claim says the empty string yields
`(none, "Missing")`; the code's sentinel check is
`pd.isna(dob_str) or str(dob_str).strip().lower() == "nan"`, which the
empty string fails, so it falls through every rule to
`(none, "Unknown/Failed")`. -/
theorem claim_C5_counterexample :
    parse_dob_comprehensive 2026 (some "") = (none, "Unknown/Failed")
  ∧ parse_dob_comprehensive 2026 (some "") ≠ (none, "Missing") := by
  constructor
  · rfl
  · decide

/-- C5 as amended: a null input, or one whose stripped lowercase form is
exactly `"nan"`, yields `(none, "Missing")`; the empty string instead
falls through every rule and yields `(none, "Unknown/Failed")`. -/
theorem claim_C5_amended (cy : Nat) (dob : Option String) :
    ((dob = none ∨ ∃ s, dob = some s ∧ toLowerStr (pyStripStr s) = "nan") →
      parse_dob_comprehensive cy dob = (none, "Missing"))
  ∧ parse_dob_comprehensive cy (some "") = (none, "Unknown/Failed") := by
  constructor
  · rintro (rfl | ⟨s, rfl, hs⟩)
    · rfl
    · simp [parse_dob_comprehensive, hs]
  · rfl

/-- Witness for C5 as amended. -/
theorem claim_C5_witness :
    parse_dob_comprehensive 2026 (some " NaN ") = (none, "Missing")
  ∧ parse_dob_comprehensive 2026 none = (none, "Missing") :=
  ⟨(claim_C5_amended 2026 (some " NaN ")).1 (Or.inr ⟨" NaN ", rfl, by decide⟩),
   (claim_C5_amended 2026 none).1 (Or.inl rfl)⟩

/-- C6.  The parser is total by construction (it is a Lean function into
pairs, mirroring the Python code whose exception handlers cover every
fallible call); an input that fails the range or calendar check of one
rule falls through to the next, and an input on which all three rules
fail — and which is not the null sentinel — yields
`(none, "Unknown/Failed")`. -/
theorem claim_C6 (cy : Nat) (t : String) :
    toLowerStr (pyStripStr t) ≠ "nan" →
    dobRule1 cy (pyStripStr t) = none →
    dobRule2 cy (pyStripStr t) = none →
    dobRule3 cy (pyStripStr t) = none →
    parse_dob_comprehensive cy (some t) = (none, "Unknown/Failed") := by
  intro h₁ h₂ h₃ h₄
  simp [parse_dob_comprehensive, h₁, h₂, h₃, h₄]

/-- Witness for C6 at the specification's calendar-invalid example. -/
theorem claim_C6_witness :
    parse_dob_comprehensive 2026 (some "31/02/1980") = (none, "Unknown/Failed") :=
  claim_C6 2026 "31/02/1980" (by decide) (by decide) (by decide) (by decide)

/-- C10.  The parser's result pair is internally consistent: the date is
present exactly when the precision label is one of `"Full Date"`,
`"Month/Year Only"`, `"Year Only"`; the date is absent exactly when the
label is `"Missing"` or `"Unknown/Failed"`; and the label is always one
of these five values. -/
theorem claim_C10 (cy : Nat) (dob : Option String) :
    ((parse_dob_comprehensive cy dob).1 ≠ none ↔
      ((parse_dob_comprehensive cy dob).2 = "Full Date"
        ∨ (parse_dob_comprehensive cy dob).2 = "Month/Year Only"
        ∨ (parse_dob_comprehensive cy dob).2 = "Year Only"))
  ∧ ((parse_dob_comprehensive cy dob).1 = none ↔
      ((parse_dob_comprehensive cy dob).2 = "Missing"
        ∨ (parse_dob_comprehensive cy dob).2 = "Unknown/Failed"))
  ∧ ((parse_dob_comprehensive cy dob).2 = "Full Date"
      ∨ (parse_dob_comprehensive cy dob).2 = "Month/Year Only"
      ∨ (parse_dob_comprehensive cy dob).2 = "Year Only"
      ∨ (parse_dob_comprehensive cy dob).2 = "Missing"
      ∨ (parse_dob_comprehensive cy dob).2 = "Unknown/Failed") := by
  rcases dob with _ | t
  · simp [parse_dob_comprehensive]
  · simp only [parse_dob_comprehensive]
    by_cases hn : toLowerStr (pyStripStr t) = "nan"
    · simp [hn]
    · rcases h₁ : dobRule1 cy (pyStripStr t) with _ | d₁
      · rcases h₂ : dobRule2 cy (pyStripStr t) with _ | d₂
        · rcases h₃ : dobRule3 cy (pyStripStr t) with _ | d₃ <;> simp [hn, h₁, h₂, h₃]
        · simp [hn, h₁, h₂]
      · simp [hn, h₁]

/-- Witness for C10 at a concrete parsed input. -/
theorem claim_C10_witness :
    (parse_dob_comprehensive 2026 (some "15/06/1980")).2 = "Full Date"
    ∨ (parse_dob_comprehensive 2026 (some "15/06/1980")).2 = "Month/Year Only"
    ∨ (parse_dob_comprehensive 2026 (some "15/06/1980")).2 = "Year Only"
    ∨ (parse_dob_comprehensive 2026 (some "15/06/1980")).2 = "Missing"
    ∨ (parse_dob_comprehensive 2026 (some "15/06/1980")).2 = "Unknown/Failed" :=
  (claim_C10 2026 (some "15/06/1980")).2.2

/-! ## Lemmas on `uniqueFirst` and filtering -/

theorem filter_head?_eq_find? (p : α → Bool) (l : List α) :
    (l.filter p).head? = l.find? p := by
  induction l with
  | nil => rfl
  | cons a l ih =>
    by_cases h : p a <;> simp [List.filter_cons, List.find?_cons, h, ih]

theorem uniqueFirstAux_mem [DecidableEq α] (seen l : List α) (x : α) :
    x ∈ uniqueFirstAux seen l ↔ x ∈ l ∧ x ∉ seen := by
  induction l generalizing seen with
  | nil => simp [uniqueFirstAux]
  | cons a l ih =>
    by_cases h : a ∈ seen
    · simp only [uniqueFirstAux, if_pos h, ih]
      constructor
      · rintro ⟨hx, hs⟩
        exact ⟨List.mem_cons_of_mem a hx, hs⟩
      · rintro ⟨hx, hs⟩
        rcases List.mem_cons.1 hx with rfl | hx
        · exact absurd h hs
        · exact ⟨hx, hs⟩
    · simp only [uniqueFirstAux, if_neg h]
      constructor
      · intro hx
        rcases List.mem_cons.1 hx with rfl | hx
        · exact ⟨List.mem_cons_self x l, h⟩
        · obtain ⟨h₁, h₂⟩ := (ih (a :: seen)).1 hx
          exact ⟨List.mem_cons_of_mem a h₁, fun hs => h₂ (List.mem_cons_of_mem a hs)⟩
      · rintro ⟨hx, hs⟩
        rcases List.mem_cons.1 hx with rfl | hx
        · exact List.mem_cons_self x _
        · by_cases hxa : x = a
          · subst hxa
            exact List.mem_cons_self x _
          · exact List.mem_cons_of_mem a ((ih (a :: seen)).2
              ⟨hx, fun hmem => (List.mem_cons.1 hmem).elim hxa hs⟩)

theorem uniqueFirstAux_nodup [DecidableEq α] (seen l : List α) :
    (uniqueFirstAux seen l).Nodup := by
  induction l generalizing seen with
  | nil => simp [uniqueFirstAux]
  | cons a l ih =>
    by_cases h : a ∈ seen
    · simpa [uniqueFirstAux, h] using ih seen
    · simp only [uniqueFirstAux, if_neg h]
      refine List.nodup_cons.2 ⟨?_, ih (a :: seen)⟩
      intro hmem
      exact ((uniqueFirstAux_mem (a :: seen) l a).1 hmem).2 (List.mem_cons_self a seen)

theorem uniqueFirst_mem [DecidableEq α] (l : List α) (x : α) :
    x ∈ uniqueFirst l ↔ x ∈ l := by
  simp [uniqueFirst, uniqueFirstAux_mem]

theorem uniqueFirst_nodup [DecidableEq α] (l : List α) : (uniqueFirst l).Nodup :=
  uniqueFirstAux_nodup [] l

theorem uniqueFirst_perm [DecidableEq α] {l₁ l₂ : List α} (h : l₁.Perm l₂) :
    (uniqueFirst l₁).Perm (uniqueFirst l₂) :=
  (List.perm_ext_iff_of_nodup (uniqueFirst_nodup l₁) (uniqueFirst_nodup l₂)).2
    (fun a => by simp [uniqueFirst_mem, h.mem_iff])

/-! ## Claim theorems: canonical-row selection (C1) -/

/-- C1.  For every entity group the canonical row is the first row (in
stable input order) tagged `"Primary name"`; if none, the first tagged
`"Primary name variation"`; if still none, the group's first row — and
that row supplies the primary name, the non-Latin primary name, the
group classification, the regime, and the three metadata dates of the
aggregated record. -/
theorem claim_C1 (g : List Row) (r : Row) :
    (g.find? tagPrimary = some r →
      canonicalFieldsEq (aggregate_sanctions_data g) r)
  ∧ (g.find? tagPrimary = none → g.find? tagPrimaryVariation = some r →
      canonicalFieldsEq (aggregate_sanctions_data g) r)
  ∧ (g.find? tagPrimary = none → g.find? tagPrimaryVariation = none →
      g.head? = some r →
      canonicalFieldsEq (aggregate_sanctions_data g) r) := by
  refine ⟨?_, ?_, ?_⟩
  · intro h
    have hsel : selectPrimaryRow g = some r := by
      simp [selectPrimaryRow, filter_head?_eq_find?, h]
    simp [aggregate_sanctions_data, hsel, canonicalFieldsEq]
  · intro h₁ h₂
    have hsel : selectPrimaryRow g = some r := by
      simp [selectPrimaryRow, filter_head?_eq_find?, h₁, h₂]
    simp [aggregate_sanctions_data, hsel, canonicalFieldsEq]
  · intro h₁ h₂ h₃
    have hsel : selectPrimaryRow g = some r := by
      simp [selectPrimaryRow, filter_head?_eq_find?, h₁, h₂, h₃]
    simp [aggregate_sanctions_data, hsel, canonicalFieldsEq]

/-- Witness for C1: in `sampleGroup` the `"Primary name"` row is second,
and its fields — not those of the first row — are carried over. -/
theorem claim_C1_witness :
    canonicalFieldsEq (aggregate_sanctions_data sampleGroup) sampleRowB :=
  (claim_C1 sampleGroup sampleRowB).1 (by decide)

/-! ## Claim theorems: one sorted output row per distinct Group ID (C2) -/

/-- C2.  The exported table has one row per distinct `Group ID` of the
input (its length is the number of distinct identifiers), the identifier
column is duplicate-free, the rows are sorted ascending by identifier,
and the identifiers are exactly those present in the input. -/
theorem claim_C2 (rows : List Row) :
    (exportTable rows).length = (rows.map (·.groupID)).toFinset.card
  ∧ ((exportTable rows).map Prod.fst).Nodup
  ∧ List.Sorted (· ≤ ·) ((exportTable rows).map Prod.fst)
  ∧ ∀ k : Int, k ∈ (exportTable rows).map Prod.fst ↔ k ∈ rows.map (·.groupID) := by
  have hperm : (groupKeys rows).Perm (uniqueFirst (rows.map (·.groupID))) :=
    List.perm_insertionSort _ _
  have hnd : (groupKeys rows).Nodup :=
    hperm.symm.nodup (uniqueFirst_nodup _)
  have hsorted : List.Sorted (· ≤ ·) (groupKeys rows) :=
    List.sorted_insertionSort _ _
  have hmapfst : (pipelineTable rows).map Prod.fst = groupKeys rows := by
    simp only [pipelineTable, List.map_map]
    have hgen : ∀ l : List Int,
        List.map (Prod.fst ∘ (fun k =>
          (k, aggregate_sanctions_data (rows.filter (fun r => r.groupID = k))))) l = l := by
      intro l
      induction l with
      | nil => rfl
      | cons x xs ih => simp [ih]
    exact hgen (groupKeys rows)
  have hsorted₂ : List.Sorted (fun a b : Int × AggRow => a.1 ≤ b.1) (pipelineTable rows) := by
    have := List.Pairwise.map (R := (· ≤ · : Int → Int → Prop))
      (S := fun a b : Int × AggRow => a.1 ≤ b.1)
      (fun k => (k, aggregate_sanctions_data (rows.filter (fun r => r.groupID = k))))
      (fun a b h => h) hsorted
    simpa [pipelineTable] using this
  have hexport : exportTable rows = pipelineTable rows := by
    simpa [exportTable, sortPairs] using List.Sorted.insertionSort_eq hsorted₂
  have hfst : (exportTable rows).map Prod.fst = groupKeys rows := by
    rw [hexport, hmapfst]
  refine ⟨?_, ?_, ?_, ?_⟩
  · have hlen : (exportTable rows).length = (groupKeys rows).length := by
      rw [← hfst, List.length_map]
    rw [hlen, hperm.length_eq,
      ← List.toFinset_card_of_nodup (uniqueFirst_nodup (rows.map (·.groupID)))]
    congr 1
    apply Finset.ext
    intro a
    simp [List.mem_toFinset, uniqueFirst_mem]
  · rw [hfst]; exact hnd
  · rw [hfst]; exact hsorted
  · intro k
    rw [hfst]
    exact hperm.mem_iff.trans (uniqueFirst_mem _ k)

/-- Witness for C2 at a concrete input with duplicate and unsorted
group identifiers. -/
theorem claim_C2_witness :
    (exportTable mixedRows).length = (mixedRows.map (·.groupID)).toFinset.card
  ∧ (exportTable mixedRows).map Prod.fst = [7, 9] :=
  ⟨(claim_C2 mixedRows).1, by decide⟩

/-! ## Claim theorems: quality gate (C9) -/

/-- C9, counterexample.  The claim says the gate reports FAIL whenever a
critical column is null; but `run_final_checks` begins with
`if not verbose: return True`, so in quiet mode it reports ready for a
table whose second row has a null primary name. -/
theorem claim_C9_counterexample :
    run_final_checks badFinalTable false = true
  ∧ (∃ r ∈ badFinalTable.frows, r.fPrimaryName = none) := by
  constructor
  · rfl
  · decide

/-- C9 as amended: when verbose reporting is enabled, the gate reports
not-ready whenever any of `Group ID`, `Primary_Name`, `Group_Type`,
`Regime` is null anywhere or the `Group ID` values are not unique (in
quiet mode it skips all checks and reports ready); and the gate never
aborts the pipeline — the exported table is produced identically
whatever the gate returns. -/
theorem claim_C9_amended :
    (∀ df : FinalTable,
      ((∃ r ∈ df.frows, r.fGroupID = none ∨ r.fPrimaryName = none
          ∨ r.fGroupType = none ∨ r.fRegime = none)
        ∨ ¬ (df.frows.map (·.fGroupID)).Nodup) →
      run_final_checks df true = false)
  ∧ (∀ (rows : List Row) (verbose : Bool),
      (mainResult rows verbose).1 = exportTable rows) := by
  constructor
  · rintro df (⟨r, hr, hcase⟩ | hdup)
    · have hany : df.frows.any (fun r =>
          r.fGroupID.isNone || r.fPrimaryName.isNone
            || r.fGroupType.isNone || r.fRegime.isNone) = true :=
        List.any_eq_true.2 ⟨r, hr, by rcases hcase with h | h | h | h <;> simp [h]⟩
      simp [run_final_checks, hany]
    · have hdec : decide (df.frows.map (·.fGroupID)).Nodup = false :=
        decide_eq_false hdup
      simp [run_final_checks, hdec]
  · intro rows verbose
    rfl

/-- Witness for C9 as amended, at the concrete table with a null primary
name. -/
theorem claim_C9_witness : run_final_checks badFinalTable true = false :=
  claim_C9_amended.1 badFinalTable
    (Or.inl ⟨badFinalTable.frows[1], by decide, Or.inr (Or.inl (by decide))⟩)

/-! ## Lemmas for the field aggregator (C3) -/

theorem uniqueFirstAux_eq_self [DecidableEq α] (seen l : List α)
    (h₁ : l.Nodup) (h₂ : ∀ x ∈ l, x ∉ seen) : uniqueFirstAux seen l = l := by
  induction l generalizing seen with
  | nil => rfl
  | cons a l ih =>
    have ha : a ∉ seen := h₂ a (List.mem_cons_self a l)
    simp only [uniqueFirstAux, if_neg ha]
    congr 1
    refine ih (a :: seen) (List.nodup_cons.1 h₁).2 ?_
    intro x hx hmem
    rcases List.mem_cons.1 hmem with rfl | hmem
    · exact (List.nodup_cons.1 h₁).1 hx
    · exact h₂ x (List.mem_cons_of_mem a hx) hmem

theorem uniqueFirst_eq_self_of_nodup [DecidableEq α] (l : List α) (h : l.Nodup) :
    uniqueFirst l = l :=
  uniqueFirstAux_eq_self [] l h (by simp)

theorem filterMap_id_map_some (l : List String) :
    (l.map (some : String → Option String)).filterMap id = l := by
  induction l with
  | nil => rfl
  | cons a l ih => simp [ih]

/-! ## Claim theorems: field aggregator algebra (C3) -/

/-- C3.  The field aggregator is order-independent (permuting the raw
values does not change the result), idempotent (aggregating a result
again returns it unchanged), and maps an all-null or empty collection to
null rather than an empty list. -/
theorem claim_C3 :
    (∀ l₁ l₂ : List (Option String), l₁.Perm l₂ →
      get_unique_sorted_list l₁ = get_unique_sorted_list l₂)
  ∧ (∀ (l : List (Option String)) (r : List String),
      get_unique_sorted_list l = some r →
      get_unique_sorted_list (r.map some) = some r)
  ∧ (∀ l : List (Option String), (∀ x ∈ l, x = none) →
      get_unique_sorted_list l = none) := by
  refine ⟨?_, ?_, ?_⟩
  · intro l₁ l₂ h
    have hperm :
        ((uniqueFirst (l₁.filterMap id)).filter (fun v => ¬ isNullSentinel v)).Perm
          ((uniqueFirst (l₂.filterMap id)).filter (fun v => ¬ isNullSentinel v)) :=
      (uniqueFirst_perm (h.filterMap id)).filter _
    have hsort :
        pySorted ((uniqueFirst (l₁.filterMap id)).filter (fun v => ¬ isNullSentinel v)) =
          pySorted ((uniqueFirst (l₂.filterMap id)).filter (fun v => ¬ isNullSentinel v)) :=
      List.eq_of_perm_of_sorted
        ((List.perm_insertionSort _ _).trans (hperm.trans (List.perm_insertionSort _ _).symm))
        (List.sorted_insertionSort _ _) (List.sorted_insertionSort _ _)
    simp only [get_unique_sorted_list, hperm.length_eq, hsort]
  · intro l r h
    simp only [get_unique_sorted_list] at h
    split at h
    · next hlen =>
      have hr : r = pySorted
          ((uniqueFirst (l.filterMap id)).filter (fun v => ¬ isNullSentinel v)) :=
        (Option.some.inj h).symm
      have hpermr : r.Perm
          ((uniqueFirst (l.filterMap id)).filter (fun v => ¬ isNullSentinel v)) := by
        rw [hr]; exact List.perm_insertionSort _ _
      have hnodup : r.Nodup :=
        hpermr.symm.nodup ((uniqueFirst_nodup _).filter _)
      have hsortedr : List.Sorted strLe r := by
        rw [hr]; exact List.sorted_insertionSort _ _
      have hclean : ∀ x ∈ r, ¬ isNullSentinel x := by
        intro x hx
        have := List.mem_filter.1 (hpermr.subset hx)
        simpa using this.2
      have hlenr : r.length > 0 := by
        rw [hpermr.length_eq]; exact hlen
      simp only [get_unique_sorted_list, filterMap_id_map_some,
        uniqueFirst_eq_self_of_nodup r hnodup]
      rw [List.filter_eq_self.2 (fun a ha => by simpa using hclean a ha)]
      rw [if_pos hlenr]
      rw [show pySorted r = r from List.Sorted.insertionSort_eq hsortedr]
    · exact absurd h (by simp)
  · intro l h
    have hnil : l.filterMap id = [] :=
      List.filterMap_eq_nil_iff.2 (fun a ha => by rw [h a ha]; rfl)
    simp [get_unique_sorted_list, hnil, uniqueFirst, uniqueFirstAux]

/-- Witness for C3 at the specification's example values. -/
theorem claim_C3_witness :
    get_unique_sorted_list [some "b", some "a", some "a", some "nan"] =
      get_unique_sorted_list [some "nan", some "a", some "a", some "b"]
  ∧ get_unique_sorted_list (["a", "b"].map some) = some ["a", "b"]
  ∧ get_unique_sorted_list [none, none] = none :=
  ⟨claim_C3.1 _ _ (by decide),
   claim_C3.2.1 [some "b", some "a", some "a", some "nan"] ["a", "b"] (by decide),
   claim_C3.2.2 [none, none] (by decide)⟩

/-! ## Lemmas on the delimiter, splitting and stripping (for C8) -/

theorem hasDelim_cons_iff {c d : Char} {l : List Char} :
    hasDelim (c :: d :: l) = false ↔ ¬(c = ';' ∧ d = ' ') ∧ hasDelim (d :: l) = false := by
  simp [hasDelim, Bool.or_eq_false_iff, Bool.and_eq_false_iff,
    decide_eq_false_iff_not, not_and_or]

theorem hasDelim_tail {c : Char} {l : List Char} (h : hasDelim (c :: l) = false) :
    hasDelim l = false := by
  rcases l with _ | ⟨d, l⟩
  · rfl
  · exact (hasDelim_cons_iff.1 h).2

theorem splitDelim_ne_nil (l : List Char) : splitDelim l ≠ [] := by
  induction l using splitDelim.induct with
  | case1 => simp [splitDelim]
  | case2 c => simp [splitDelim]
  | case3 c d l h ih => simp [splitDelim, h]
  | case4 c d l h ih => simp [splitDelim, h]

theorem splitDelim_delim_cons (y : List Char) :
    splitDelim (';' :: ' ' :: y) = [] :: splitDelim y := by
  simp [splitDelim]

theorem splitDelim_head_shape (d : Char) (l : List Char) :
    (splitDelim (d :: l)).head? = some [] ∨
      ∃ p', (splitDelim (d :: l)).head? = some (d :: p') := by
  rcases l with _ | ⟨e, l⟩
  · right; exact ⟨[], rfl⟩
  · by_cases h : d = ';' ∧ e = ' '
    · left
      simp [splitDelim, h]
    · right
      refine ⟨(splitDelim (e :: l)).headD [], ?_⟩
      simp [splitDelim, h]

theorem splitDelim_pieces (l : List Char) :
    ∀ p ∈ splitDelim l, hasDelim p = false := by
  induction l using splitDelim.induct with
  | case1 => simp [splitDelim, hasDelim]
  | case2 c => simp [splitDelim, hasDelim]
  | case3 c d l h ih =>
    simp only [splitDelim, if_pos h]
    intro p hp
    rcases List.mem_cons.1 hp with rfl | hp
    · rfl
    · exact ih p hp
  | case4 c d l h ih =>
    simp only [splitDelim, if_neg h]
    intro q hq
    rcases hs : splitDelim (d :: l) with _ | ⟨p, ps⟩
    · exact absurd hs (splitDelim_ne_nil _)
    · rw [hs] at hq
      simp only [List.headD_cons, List.tail_cons] at hq
      rcases List.mem_cons.1 hq with rfl | hq
      · have hp : hasDelim p = false := ih p (by rw [hs]; exact List.mem_cons_self p ps)
        rcases p with _ | ⟨e, p'⟩
        · rfl
        · have hhead := splitDelim_head_shape d l
          rw [hs] at hhead
          have he : e = d := by
            rcases hhead with h' | ⟨p'', h'⟩
            · simp at h'
            · simp only [List.head?_cons, Option.some.injEq, List.cons.injEq] at h'
              exact h'.1
          subst he
          exact hasDelim_cons_iff.2 ⟨h, hp⟩
      · exact ih q (by rw [hs]; exact List.mem_cons_of_mem p hq)

theorem splitDelim_no_delim (x : List Char) :
    hasDelim x = false → splitDelim x = [x] := by
  induction x with
  | nil => intro _; rfl
  | cons c x' ih =>
    intro h
    rcases x' with _ | ⟨d, x''⟩
    · rfl
    · have hcd := (hasDelim_cons_iff.1 h).1
      have ht := (hasDelim_cons_iff.1 h).2
      simp only [splitDelim, if_neg hcd]
      rw [ih ht]
      simp

theorem splitDelim_append (x y : List Char) :
    hasDelim x = false → splitDelim (x ++ ';' :: ' ' :: y) = x :: splitDelim y := by
  induction x with
  | nil =>
    intro _
    simpa using splitDelim_delim_cons y
  | cons c x' ih =>
    intro h
    rcases x' with _ | ⟨d, x''⟩
    · have hc : ¬(c = ';' ∧ ';' = ' ') := by simp
      show splitDelim (c :: ';' :: ' ' :: y) = [c] :: splitDelim y
      simp only [splitDelim, if_neg hc]
      simp
    · have hcd := (hasDelim_cons_iff.1 h).1
      have ht := (hasDelim_cons_iff.1 h).2
      have hrest := ih ht
      show splitDelim (c :: d :: (x'' ++ ';' :: ' ' :: y)) = (c :: d :: x'') :: splitDelim y
      simp only [splitDelim, if_neg hcd]
      rw [show d :: (x'' ++ ';' :: ' ' :: y) = (d :: x'') ++ ';' :: ' ' :: y from rfl, hrest]
      simp

theorem splitDelim_intercalate (L : List (List Char)) (hne : L ≠ [])
    (h : ∀ x ∈ L, hasDelim x = false) :
    splitDelim (intercalateDelim L) = L := by
  induction L with
  | nil => exact absurd rfl hne
  | cons x L' ih =>
    rcases L' with _ | ⟨y, L''⟩
    · exact splitDelim_no_delim x (h x (List.mem_cons_self x []))
    · rw [show intercalateDelim (x :: y :: L'') = x ++ ';' :: ' ' :: intercalateDelim (y :: L'')
        from rfl]
      rw [splitDelim_append _ _ (h x (List.mem_cons_self x _))]
      rw [ih (by simp) (fun z hz => h z (List.mem_cons_of_mem x hz))]

theorem dropWhile_self_idem (p : Char → Bool) (l : List Char) :
    (l.dropWhile p).dropWhile p = l.dropWhile p := by
  induction l with
  | nil => rfl
  | cons c l ih =>
    by_cases h : p c
    · rw [List.dropWhile_cons, if_pos h, ih]
    · rw [List.dropWhile_cons, if_neg h, List.dropWhile_cons, if_neg h]

theorem rstripWs_eq_nil_iff (l : List Char) :
    rstripWs l = [] ↔ ∀ c ∈ l, isPySpace c = true := by
  induction l with
  | nil => simp [rstripWs]
  | cons c l ih =>
    simp only [rstripWs]
    by_cases h : rstripWs l = [] ∧ isPySpace c = true
    · rw [if_pos h]
      constructor
      · intro _ a ha
        rcases List.mem_cons.1 ha with rfl | ha
        · exact h.2
        · exact ih.1 h.1 a ha
      · intro _; rfl
    · rw [if_neg h]
      constructor
      · intro hx; exact absurd hx (by simp)
      · intro hall
        exact absurd ⟨ih.2 (fun x hx => hall x (List.mem_cons_of_mem c hx)),
          hall c (List.mem_cons_self c l)⟩ h

theorem rstripWs_idem (l : List Char) : rstripWs (rstripWs l) = rstripWs l := by
  induction l with
  | nil => rfl
  | cons c l ih =>
    by_cases h : rstripWs l = [] ∧ isPySpace c = true
    · simp only [rstripWs, if_pos h]
    · simp only [rstripWs, if_neg h]
      simp only [rstripWs, ih]
      rw [if_neg h]

theorem rstripWs_dropWhile_comm (l : List Char) :
    rstripWs (l.dropWhile isPySpace) = (rstripWs l).dropWhile isPySpace := by
  induction l with
  | nil => rfl
  | cons c l ih =>
    by_cases hc : isPySpace c = true
    · by_cases hnil : rstripWs l = []
      · have hcond : rstripWs l = [] ∧ isPySpace c = true := ⟨hnil, hc⟩
        have hr : rstripWs (c :: l) = [] := by
          simp only [rstripWs]
          rw [if_pos hcond]
        rw [List.dropWhile_cons, if_pos hc, ih, hnil, hr]
      · have hr : rstripWs (c :: l) = c :: rstripWs l := by
          simp only [rstripWs]
          rw [if_neg (fun hx => hnil hx.1)]
        rw [List.dropWhile_cons, if_pos hc, ih, hr, List.dropWhile_cons, if_pos hc]
    · have hr : rstripWs (c :: l) = c :: rstripWs l := by
        simp only [rstripWs]
        rw [if_neg (fun hx => hc hx.2)]
      rw [List.dropWhile_cons, if_neg hc, hr, List.dropWhile_cons, if_neg hc]

theorem pyStrip_idem (l : List Char) : pyStrip (pyStrip l) = pyStrip l := by
  unfold pyStrip
  rw [rstripWs_dropWhile_comm (rstripWs l), rstripWs_idem, dropWhile_self_idem]

theorem hasDelim_dropWhile (p : Char → Bool) (l : List Char) :
    hasDelim l = false → hasDelim (l.dropWhile p) = false := by
  induction l with
  | nil => intro _; rfl
  | cons c l ih =>
    intro h
    by_cases hc : p c
    · rw [List.dropWhile_cons, if_pos hc]
      exact ih (hasDelim_tail h)
    · rw [List.dropWhile_cons, if_neg hc]
      exact h

theorem rstripWs_head_eq (l : List Char) (h : rstripWs l ≠ []) :
    (rstripWs l).head? = l.head? := by
  rcases l with _ | ⟨c, l⟩
  · rfl
  · by_cases hx : rstripWs l = [] ∧ isPySpace c = true
    · exact absurd (by simp only [rstripWs, if_pos hx]) h
    · simp only [rstripWs, if_neg hx]
      rfl

theorem hasDelim_rstripWs (l : List Char) :
    hasDelim l = false → hasDelim (rstripWs l) = false := by
  induction l with
  | nil => intro _; rfl
  | cons c l ih =>
    intro h
    by_cases hx : rstripWs l = [] ∧ isPySpace c = true
    · simp only [rstripWs, if_pos hx]
      rfl
    · simp only [rstripWs, if_neg hx]
      have hl : hasDelim (rstripWs l) = false := ih (hasDelim_tail h)
      rcases hm : rstripWs l with _ | ⟨d, m⟩
      · rfl
      · have hd : (d :: m).head? = l.head? := by
          rw [← hm]
          exact rstripWs_head_eq l (by rw [hm]; simp)
        rcases l with _ | ⟨e, l'⟩
        · simp [rstripWs] at hm
        · have hde : d = e := by simpa using hd
          subst hde
          refine hasDelim_cons_iff.2 ⟨(hasDelim_cons_iff.1 h).1, ?_⟩
          rw [← hm]
          exact hl

theorem hasDelim_pyStrip (l : List Char) (h : hasDelim l = false) :
    hasDelim (pyStrip l) = false :=
  hasDelim_dropWhile _ _ (hasDelim_rstripWs _ h)

/-! ## Lemmas on the country replacement table (for C8) -/

theorem table_values_good :
    ∀ q ∈ country_replacement_map,
      pyStrip q.2.data = q.2.data
      ∧ hasDelim q.2.data = false
      ∧ country_replacement_map.find? (fun p => p.1 = q.2) = none := by
  decide

theorem mapGetCountry_good (t : String) (h₁ : pyStrip t.data = t.data)
    (h₂ : hasDelim t.data = false) :
    pyStrip (mapGetCountry t).data = (mapGetCountry t).data
    ∧ hasDelim (mapGetCountry t).data = false
    ∧ country_replacement_map.find? (fun p => p.1 = mapGetCountry t) = none := by
  rcases hf : country_replacement_map.find? (fun p => p.1 = t) with _ | q
  · have ht : mapGetCountry t = t := by
      unfold mapGetCountry
      rw [hf]
    refine ⟨?_, ?_, ?_⟩ <;> rw [ht]
    exacts [h₁, h₂, hf]
  · have ht : mapGetCountry t = q.2 := by
      unfold mapGetCountry
      rw [hf]
    rw [ht]
    exact table_values_good q (List.mem_of_find?_eq_some hf)

theorem mapGetCountry_fixed (x : String)
    (h : country_replacement_map.find? (fun p => p.1 = x) = none) :
    mapGetCountry x = x := by
  unfold mapGetCountry
  rw [h]

/-! ## Characterization of `standardize_cell` output (for C8) -/

theorem standardize_cell_eq (s : String) :
    standardize_cell (some s) =
      if pySorted (uniqueFirst ((((splitDelim s.data).map
            (fun p => String.mk (pyStrip p))).map mapGetCountry).filter
              (fun v => v ≠ ""))) = []
      then none
      else some (String.mk (intercalateDelim
        ((pySorted (uniqueFirst ((((splitDelim s.data).map
            (fun p => String.mk (pyStrip p))).map mapGetCountry).filter
              (fun v => v ≠ "")))).map String.data))) := rfl

theorem standardize_cell_result (s : String) :
    standardize_cell (some s) = none ∨
    ∃ L : List String,
      standardize_cell (some s) = some (String.mk (intercalateDelim (L.map String.data)))
      ∧ L ≠ [] ∧ L.Nodup ∧ List.Sorted strLe L
      ∧ ∀ x ∈ L, x ≠ "" ∧ pyStrip x.data = x.data ∧ hasDelim x.data = false
          ∧ country_replacement_map.find? (fun p => p.1 = x) = none := by
  rw [standardize_cell_eq]
  by_cases h : pySorted (uniqueFirst ((((splitDelim s.data).map
      (fun p => String.mk (pyStrip p))).map mapGetCountry).filter
        (fun v => v ≠ ""))) = []
  · left
    rw [if_pos h]
  · right
    rw [if_neg h]
    refine ⟨pySorted (uniqueFirst ((((splitDelim s.data).map
      (fun p => String.mk (pyStrip p))).map mapGetCountry).filter
        (fun v => v ≠ ""))), rfl, h, ?_, ?_, ?_⟩
    · exact (List.perm_insertionSort _ _).symm.nodup (uniqueFirst_nodup _)
    · exact List.sorted_insertionSort _ _
    · intro x hx
      have hx₁ : x ∈ uniqueFirst ((((splitDelim s.data).map
          (fun p => String.mk (pyStrip p))).map mapGetCountry).filter
            (fun v => v ≠ "")) :=
        (List.perm_insertionSort _ _).subset hx
      have hx₂ := (uniqueFirst_mem _ x).1 hx₁
      have hx₃ := List.mem_filter.1 hx₂
      have hxne : x ≠ "" := by simpa using hx₃.2
      obtain ⟨t, ht, rfl⟩ := List.mem_map.1 hx₃.1
      obtain ⟨piece, hpiece, rfl⟩ := List.mem_map.1 ht
      have hstrip : pyStrip (String.mk (pyStrip piece)).data =
          (String.mk (pyStrip piece)).data := pyStrip_idem piece
      have hnd : hasDelim (String.mk (pyStrip piece)).data = false :=
        hasDelim_pyStrip _ (splitDelim_pieces s.data piece hpiece)
      obtain ⟨g₁, g₂, g₃⟩ := mapGetCountry_good _ hstrip hnd
      exact ⟨hxne, g₁, g₂, g₃⟩

theorem standardize_cell_fixed (L : List String) (hne : L ≠ []) (hnd : L.Nodup)
    (hsort : List.Sorted strLe L)
    (hgood : ∀ x ∈ L, x ≠ "" ∧ pyStrip x.data = x.data ∧ hasDelim x.data = false
      ∧ country_replacement_map.find? (fun p => p.1 = x) = none) :
    standardize_cell (some (String.mk (intercalateDelim (L.map String.data)))) =
      some (String.mk (intercalateDelim (L.map String.data))) := by
  have hsplit : splitDelim (String.mk (intercalateDelim (L.map String.data))).data =
      L.map String.data := by
    refine splitDelim_intercalate _ (by simpa using hne) ?_
    intro x hx
    obtain ⟨y, hy, rfl⟩ := List.mem_map.1 hx
    exact (hgood y hy).2.2.1
  have hcountries : (L.map String.data).map (fun p => String.mk (pyStrip p)) = L := by
    rw [List.map_map]
    calc L.map ((fun p => String.mk (pyStrip p)) ∘ String.data)
        = L.map id := List.map_congr_left (fun y hy => by
          show String.mk (pyStrip y.data) = y
          rw [(hgood y hy).2.1])
      _ = L := List.map_id L
  have hmapped : L.map mapGetCountry = L := by
    calc L.map mapGetCountry
        = L.map id := List.map_congr_left
          (fun y hy => mapGetCountry_fixed y (hgood y hy).2.2.2)
      _ = L := List.map_id L
  have hfilter : L.filter (fun v => v ≠ "") = L :=
    List.filter_eq_self.2 (fun a ha => by simpa using (hgood a ha).1)
  rw [standardize_cell_eq, hsplit, hcountries, hmapped, hfilter,
    uniqueFirst_eq_self_of_nodup L hnd,
    show pySorted L = L from List.Sorted.insertionSort_eq hsort, if_neg hne]

/-! ## Claim theorem: aggregate-level standardization is idempotent (C8) -/

/-- C8.  The aggregate-level country standardization pass — split on the
delimiter, map each stripped token through the fixed replacement table
(unmapped tokens pass through), deduplicate, sort, rejoin, null in null
out — is idempotent: applying it to its own output returns that output. -/
theorem claim_C8 (cell : Option String) :
    standardize_cell (standardize_cell cell) = standardize_cell cell := by
  rcases cell with _ | s
  · rfl
  · rcases standardize_cell_result s with h | ⟨L, hL, hne, hnd, hsort, hgood⟩
    · rw [h]; rfl
    · rw [hL]
      exact standardize_cell_fixed L hne hnd hsort hgood

/-- Witness for C8 at a concrete delimited cell with mapped variants. -/
theorem claim_C8_witness :
    standardize_cell (standardize_cell (some "Russian Federation; Russia; USSR")) =
      standardize_cell (some "Russian Federation; Russia; USSR")
  ∧ standardize_cell (some "Russian Federation; Russia; USSR") =
      some "Russia; Russia (USSR)" :=
  ⟨claim_C8 (some "Russian Federation; Russia; USSR"), by decide⟩

/-! ## Lemmas on the country-extraction matcher (for C7) -/

theorem takeWhile_all {p : Char → Bool} {l : List Char}
    (h : ∀ c ∈ l, p c = true) : l.takeWhile p = l := by
  induction l with
  | nil => rfl
  | cons c l ih =>
    rw [List.takeWhile_cons, if_pos (h c (List.mem_cons_self c l))]
    rw [ih (fun x hx => h x (List.mem_cons_of_mem c hx))]

theorem mem_of_mem_dropWhile {p : Char → Bool} {c : Char} {l : List Char}
    (h : c ∈ l.dropWhile p) : c ∈ l := by
  induction l with
  | nil => simp at h
  | cons a l ih =>
    rw [List.dropWhile_cons] at h
    by_cases ha : p a
    · rw [if_pos ha] at h
      exact List.mem_cons_of_mem a (ih h)
    · rw [if_neg ha] at h
      exact h

theorem tailOKF_nil (f : Nat) : tailOKF f [] = true := by
  cases f <;> simp [tailOKF]

theorem parensNumCore_sub {l rest : List Char} (h : parensNumCore l = some rest) :
    ∀ c ∈ rest, c ∈ l := by
  unfold parensNumCore at h
  split at h
  · exact absurd h (by simp)
  · next c₀ r₂ =>
    split at h
    · split at h
      · exact absurd h (by simp)
      · split at h
        · exact absurd h (by simp)
        · next c' rest₃ hdrop =>
          split at h
          · intro c hc₃
            have h₁ : c ∈ c' :: rest₃ := by
              rw [← Option.some.inj h] at hc₃
              exact List.mem_cons_of_mem c' hc₃
            rw [← hdrop] at h₁
            exact List.mem_cons_of_mem c₀ (List.mem_of_mem_drop h₁)
          · exact absurd h (by simp)
    · exact absurd h (by simp)

theorem parensNumHead_sub {r rest : List Char} (h : parensNumHead r = some rest) :
    ∀ c ∈ rest, c ∈ r :=
  fun c hc => mem_of_mem_dropWhile (parensNumCore_sub h c hc)

theorem tailOK_no_newline {r : List Char} (h : ∀ c ∈ r, c ≠ '\n') :
    tailOK r = true ↔ (r = [] ∨ (parensNumHead r).isSome = true) := by
  rcases hr : r with _ | ⟨c, r'⟩
  · simp [tailOK, tailOKF_nil]
  · subst hr
    have hlen : (c :: r').length = r'.length + 1 := rfl
    rw [tailOK, hlen]
    simp only [tailOKF]
    rw [if_neg (by simp)]
    rw [if_neg (by
      intro hx
      exact absurd (by rw [hx]; exact List.mem_cons_self '\n' [] : '\n' ∈ c :: r')
        (fun hm => h '\n' hm rfl))]
    rcases hp : parensNumHead (c :: r') with _ | rest
    · simp
    · simp only [Option.isSome_some]
      constructor
      · intro _
        exact Or.inr trivial
      · intro _
        apply List.any_eq_true.2
        refine ⟨rest.length, ?_, ?_⟩
        · have hrest : rest.takeWhile (fun x => x ≠ '\n') = rest := by
            apply takeWhile_all
            intro x hx
            simpa using h x (parensNumHead_sub hp x hx)
          rw [hrest]
          exact List.mem_range.2 (Nat.lt_succ_self _)
        · rw [List.drop_length]
          exact tailOKF_nil _

theorem isPySpace_ne_lparen {c : Char} (h : isPySpace c = true) : c ≠ '(' := by
  intro hx
  rw [hx] at h
  exact absurd h (by decide)

theorem startsParenNum_head_isSome {t : List Char} (h : startsParenNum t = true) :
    (parensNumHead t).isSome = true := by
  rcases t with _ | ⟨c, r⟩
  · simp [startsParenNum, parensNumCore] at h
  · have hc : c = '(' := by
      by_contra hc
      simp [startsParenNum, parensNumCore, hc] at h
    unfold parensNumHead
    rw [List.dropWhile_cons, if_neg (by rw [hc]; decide)]
    exact h

theorem cutAnnot_all_ws {t rest : List Char} (h : parensNumHead t = some rest) :
    ∀ c ∈ cutTrailingAnnot t, isPySpace c = true := by
  induction t with
  | nil => simp [parensNumHead, parensNumCore] at h
  | cons c t' ih =>
    by_cases hw : isPySpace c = true
    · have h' : parensNumHead t' = some rest := by
        unfold parensNumHead at h ⊢
        rwa [List.dropWhile_cons, if_pos hw] at h
      have hsp : startsParenNum (c :: t') = false := by
        simp [startsParenNum, parensNumCore, isPySpace_ne_lparen hw]
      rw [show cutTrailingAnnot (c :: t') = c :: cutTrailingAnnot t' from by
        simp [cutTrailingAnnot, hsp]]
      intro x hx
      rcases List.mem_cons.1 hx with rfl | hx
      · exact hw
      · exact ih h' x hx
    · have hsp : startsParenNum (c :: t') = true := by
        unfold parensNumHead at h
        rw [List.dropWhile_cons, if_neg hw] at h
        simp [startsParenNum, h]
      rw [show cutTrailingAnnot (c :: t') = [] from by simp [cutTrailingAnnot, hsp]]
      simp

theorem lazySplit_char (t : List Char) :
    (∀ c ∈ t, c ≠ '\n') →
    ∃ g, lazySplitRec t = some g ∧ rstripWs g = rstripWs (cutTrailingAnnot t) := by
  induction t with
  | nil =>
    intro _
    exact ⟨[], rfl, rfl⟩
  | cons c r ih =>
    intro hnl
    by_cases htok : tailOK (c :: r) = true
    · refine ⟨[], by simp [lazySplitRec, htok], ?_⟩
      have hpn : (parensNumHead (c :: r)).isSome = true := by
        rcases (tailOK_no_newline hnl).1 htok with h | h
        · exact absurd h (by simp)
        · exact h
      obtain ⟨rest, hrest⟩ := Option.isSome_iff_exists.1 hpn
      have hws := cutAnnot_all_ws hrest
      rw [show rstripWs [] = ([] : List Char) from rfl]
      exact ((rstripWs_eq_nil_iff _).2 hws).symm
    · have htok' : tailOK (c :: r) = false := by
        revert htok
        cases tailOK (c :: r) <;> simp
      have hc : c ≠ '\n' := hnl c (List.mem_cons_self c r)
      obtain ⟨g, hg, hgr⟩ := ih (fun x hx => hnl x (List.mem_cons_of_mem c hx))
      refine ⟨c :: g, ?_, ?_⟩
      · simp [lazySplitRec, htok', hc, hg]
      · have hsp : startsParenNum (c :: r) = false := by
          by_contra hb
          have hb' : startsParenNum (c :: r) = true := by
            revert hb
            cases startsParenNum (c :: r) <;> simp
          exact htok ((tailOK_no_newline hnl).2 (Or.inr (startsParenNum_head_isSome hb')))
        rw [show cutTrailingAnnot (c :: r) = c :: cutTrailingAnnot r from by
          simp [cutTrailingAnnot, hsp]]
        simp only [rstripWs, hgr]

theorem tryIter_stripOne (s : List Char) :
    stripOneLeadingCode s = (tryIter s).map Prod.snd := by
  rcases s with _ | ⟨c, t⟩
  · rfl
  · simp only [stripOneLeadingCode, tryIter]
    by_cases hc : c = '('
    · rw [if_pos hc, if_pos hc]
      by_cases hw : 1 ≤ (t.takeWhile isWordChar).length ∧ (t.takeWhile isWordChar).length ≤ 3
      · rw [if_pos hw, if_pos hw]
        rcases hd : t.drop (t.takeWhile isWordChar).length with _ | ⟨c', u⟩
        · rfl
        · by_cases hc' : c' = ')'
          · simp [hc']
          · simp [hc']
      · rw [if_neg hw, if_neg hw]
        rfl
    · rw [if_neg hc, if_neg hc]
      rfl

theorem stripOne_sub {s rest : List Char} (h : stripOneLeadingCode s = some rest) :
    ∀ c ∈ rest, c ∈ s := by
  unfold stripOneLeadingCode at h
  split at h
  · exact absurd h (by simp)
  · next c₀ t =>
    split at h
    · split at h
      · split at h
        · exact absurd h (by simp)
        · next c' u hdrop =>
          split at h
          · intro c hc
            have h₁ : c ∈ c' :: u := by
              rw [← Option.some.inj h] at hc
              exact List.mem_cons_of_mem c' (mem_of_mem_dropWhile hc)
            rw [← hdrop] at h₁
            exact List.mem_cons_of_mem c₀ (List.mem_of_mem_drop h₁)
          · exact absurd h (by simp)
      · exact absurd h (by simp)
    · exact absurd h (by simp)

theorem dropCodesSpecF_sub (f : Nat) (s : List Char) :
    ∀ c ∈ dropCodesSpecF f s, c ∈ s := by
  induction f generalizing s with
  | zero => intro c hc; exact hc
  | succ f ih =>
    intro c hc
    simp only [dropCodesSpecF] at hc
    rcases h : stripOneLeadingCode s with _ | rest
    · rw [h] at hc
      exact hc
    · rw [h] at hc
      exact stripOne_sub h c (ih rest c hc)

theorem leadStatesF_ne_nil (f : Nat) (s : List Char) : leadStatesF f s ≠ [] := by
  cases f with
  | zero => simp [leadStatesF]
  | succ f =>
    simp only [leadStatesF]
    rcases h : tryIter s with _ | ⟨ws, rest⟩
    · simp
    · simp

theorem leadStatesF_head (f : Nat) (s : List Char) :
    (leadStatesF f s).head? = some (dropCodesSpecF f s) := by
  induction f generalizing s with
  | zero => rfl
  | succ f ih =>
    simp only [leadStatesF, dropCodesSpecF, tryIter_stripOne]
    rcases h : tryIter s with _ | ⟨ws, rest⟩
    · simp
    · simp only [Option.map_some]
      have hne := leadStatesF_ne_nil f rest
      rcases hl : leadStatesF f rest with _ | ⟨a, as⟩
      · exact absurd hl hne
      · have hh := ih rest
        rw [hl] at hh
        simp only [List.head?_cons] at hh
        simp [hh]

/-- The matcher succeeds on every newline-free string, group 1 being the
lazy cut of the greedily code-stripped remainder. -/
theorem pyGroup1_no_newline (s : List Char) (h : ∀ c ∈ s, c ≠ '\n') :
    ∃ g, pyGroup1 s = some g
      ∧ rstripWs g = rstripWs (cutTrailingAnnot (dropLeadingCodesSpec s)) := by
  have hsub := dropCodesSpecF_sub s.length s
  have hnl : ∀ c ∈ dropLeadingCodesSpec s, c ≠ '\n' :=
    fun c hc => h c (hsub c hc)
  obtain ⟨g, hg, hgr⟩ := lazySplit_char (dropLeadingCodesSpec s) hnl
  refine ⟨g, ?_, hgr⟩
  unfold pyGroup1 leadStates
  have hhead := leadStatesF_head s.length s
  rcases hl : leadStatesF s.length s with _ | ⟨a, as⟩
  · exact absurd hl (leadStatesF_ne_nil _ _)
  · rw [hl] at hhead
    simp only [List.head?_cons] at hhead
    have ha : a = dropLeadingCodesSpec s := by
      simpa [dropLeadingCodesSpec] using hhead
    rw [List.findSome?_cons]
    rw [ha, hg]

/-! ## Claim theorems: row-level country cleansing (C7) -/

/-- C7, counterexample.  The claim describes `clean_country_string` as
always stripping leading bracketed codes; but on `"(ab)x\ny"` the
extraction pattern fails to match (group 1 cannot cross the interior
newline and no trailing-group decomposition exists), so the code falls
back to stripping the raw string and returns it with the leading code
intact, while the claim's description would remove `"(ab)"`. -/
theorem claim_C7_counterexample :
    clean_country_string (some "(ab)x\ny") = some "(ab)x\ny"
  ∧ cleanCountrySpec (some "(ab)x\ny") = some "x\ny"
  ∧ clean_country_string (some "(ab)x\ny") ≠ cleanCountrySpec (some "(ab)x\ny") := by
  refine ⟨by decide, by decide, by decide⟩

/-- C7 as amended: for every non-null input string containing no newline
character, `clean_country_string` strips any leading bracketed short
codes (one to three word characters in parentheses, possibly repeated),
cuts from the first parenthesized-number annotation onward, trims
whitespace, strips trailing periods/commas/spaces, and returns null when
the result is empty — that is, it agrees with the specification-side
description `cleanCountrySpec`.  (On strings with an interior newline the
extraction pattern can fail, in which case only the whitespace trim and
trailing-punctuation strip are applied.) -/
theorem claim_C7_amended (s : String) (h : ∀ c ∈ s.data, c ≠ '\n') :
    clean_country_string (some s) = cleanCountrySpec (some s) := by
  obtain ⟨g, hg, hgr⟩ := pyGroup1_no_newline s.data h
  have hstr : pyStrip g = pyStrip (cutTrailingAnnot (dropLeadingCodesSpec s.data)) := by
    unfold pyStrip
    rw [hgr]
  simp only [clean_country_string, cleanCountrySpec, hg, hstr]
  by_cases hV : pyStrip (cutTrailingAnnot (dropLeadingCodesSpec s.data)) = []
  · simp [hV, rstripPunct]
  · simp [hV]

/-- Witness for C7 as amended, at the specification's own example. -/
theorem claim_C7_witness :
    clean_country_string (some "(3) Russian Federation (1234)") =
      cleanCountrySpec (some "(3) Russian Federation (1234)")
  ∧ cleanCountrySpec (some "(3) Russian Federation (1234)") = some "Russian Federation" :=
  ⟨claim_C7_amended "(3) Russian Federation (1234)" (by decide), by decide⟩

end Sanctions
